import Mathlib

/-!
Verification development for the pxblat repository.

Part A embeds the build-script helpers of `setup.py` (`remove_env`,
`change_dir`, `change_env`) as pure Lean functions over explicit
environment/directory state.

Part B models the index-server core described by the design document
(sequence codec, genome tile index, search engine, port manager); the
corresponding implementation files are not part of the packaging sources,
so those definitions are modelled from the specification text.
-/

/-! ## Part A: embeddings of `setup.py` helpers -/

/-- Whitespace characters recognised by Python's `shlex` lexer. -/
def isShWhitespace (c : Char) : Bool :=
  c == ' ' || c == '\t' || c == '\r' || c == '\n'

/-- States of the POSIX-mode `shlex` token scanner: between tokens, inside a
word, inside single or double quotes, or after a backslash (outside or inside
double quotes). -/
inductive ShlexState
  | ws
  | word
  | singleQ
  | doubleQ
  | escaped
  | escapedDq
deriving DecidableEq

/-- Core state machine of Python's `shlex.split` in POSIX mode with
whitespace-only splitting and no comment handling.  Arguments: remaining
input, scanner state, current token accumulated in reverse, finished tokens
accumulated in reverse.  An unterminated quote or a trailing backslash is a
`ValueError` in Python; here it is an `Except.error` carrying the message. -/
def shlexAux : List Char → ShlexState → List Char → List (List Char) →
    Except String (List (List Char))
  | [], .ws, _, acc => .ok acc.reverse
  | [], .word, tok, acc => .ok ((tok.reverse :: acc).reverse)
  | [], .singleQ, _, _ => .error "No closing quotation"
  | [], .doubleQ, _, _ => .error "No closing quotation"
  | [], .escaped, _, _ => .error "No escaped character"
  | [], .escapedDq, _, _ => .error "No escaped character"
  | c :: cs, .ws, tok, acc =>
    if isShWhitespace c then shlexAux cs .ws tok acc
    else if c = '\'' then shlexAux cs .singleQ tok acc
    else if c = '"' then shlexAux cs .doubleQ tok acc
    else if c = '\\' then shlexAux cs .escaped tok acc
    else shlexAux cs .word (c :: tok) acc
  | c :: cs, .word, tok, acc =>
    if isShWhitespace c then shlexAux cs .ws [] (tok.reverse :: acc)
    else if c = '\'' then shlexAux cs .singleQ tok acc
    else if c = '"' then shlexAux cs .doubleQ tok acc
    else if c = '\\' then shlexAux cs .escaped tok acc
    else shlexAux cs .word (c :: tok) acc
  | c :: cs, .singleQ, tok, acc =>
    if c = '\'' then shlexAux cs .word tok acc
    else shlexAux cs .singleQ (c :: tok) acc
  | c :: cs, .doubleQ, tok, acc =>
    if c = '"' then shlexAux cs .word tok acc
    else if c = '\\' then shlexAux cs .escapedDq tok acc
    else shlexAux cs .doubleQ (c :: tok) acc
  | c :: cs, .escaped, tok, acc => shlexAux cs .word (c :: tok) acc
  | c :: cs, .escapedDq, tok, acc =>
    if c = '"' ∨ c = '\\' then shlexAux cs .doubleQ (c :: tok) acc
    else shlexAux cs .doubleQ (c :: '\\' :: tok) acc

/-- Python's `shlex.split` (POSIX mode), as called by `remove_env`. -/
def shlex_split (s : String) : Except String (List String) :=
  (shlexAux s.data .ws [] []).map (fun ts => ts.map String.mk)

/-- Python exceptions raised by `remove_env`: the `RuntimeError` it raises
itself, or the `ValueError` that `shlex.split` raises on malformed input. -/
inductive PyErr
  | runtimeError (msg : String)
  | valueError (msg : String)
deriving DecidableEq

/-- `remove_env` from `setup.py`: reads `CFLAGS` and `CPPFLAGS` from the
environment (defaulting to the empty string), shell-lexes each, and raises
`RuntimeError` if any resulting flag starts with `key` (Python's
`flag.startswith(key)` is the prefix test on the character sequences,
`key.data.isPrefixOf flag.data` here).  The environment is modelled as a map from variable name to optional
value; the function reads it and never writes it. -/
def remove_env (key : String) (env : String → Option String) : Except PyErr Unit :=
  let env_cflags := (env "CFLAGS").getD ""
  let env_cppflags := (env "CPPFLAGS").getD ""
  match shlex_split env_cflags with
  | .error e => .error (.valueError e)
  | .ok f1 =>
    match shlex_split env_cppflags with
    | .error e => .error (.valueError e)
    | .ok f2 =>
      if (f1 ++ f2).any (fun flag => key.data.isPrefixOf flag.data) then
        .error (.runtimeError ("Please remove " ++ key ++ " from CFLAGS and CPPFLAGS."))
      else .ok ()

/-- A computation over the process working directory: from the current
directory it produces a result (or a raised exception) together with the
directory afterwards.  This models the state touched by `os.getcwd`/`os.chdir`
in `change_dir`. -/
def DirM (ε α : Type) := String → Except ε α × String

/-- `os.getcwd()`. -/
def getcwd {ε : Type} : DirM ε String := fun d => (.ok d, d)

/-- `os.chdir(path)`. -/
def chdir {ε : Type} (path : String) : DirM ε Unit := fun _ => (.ok (), path)

/-- Sequencing of directory computations; an exception skips the rest. -/
def dirBind {ε α β : Type} (m : DirM ε α) (f : α → DirM ε β) : DirM ε β := fun d =>
  match m d with
  | (.ok a, d1) => f a d1
  | (.error e, d1) => (.error e, d1)

/-- Python's `try ... finally fin`: `fin` runs whether or not the body raised;
the body's outcome is reported unless `fin` itself raises. -/
def tryFinallyD {ε α : Type} (body : DirM ε α) (fin : DirM ε Unit) : DirM ε α := fun d =>
  match body d with
  | (r, d1) =>
    match fin d1 with
    | (.ok _, d2) => (r, d2)
    | (.error e, d2) => (.error e, d2)

/-- `change_dir` from `setup.py`: saves `os.getcwd()`, does `os.chdir(path)`,
runs the body, and in a `finally` block does `os.chdir(save_dir)`. -/
def change_dir {ε α : Type} (path : String) (body : DirM ε α) : DirM ε α :=
  dirBind getcwd (fun save_dir =>
    dirBind (chdir path) (fun _ =>
      tryFinallyD body (chdir save_dir)))

/-- The value `change_env`'s wrapper stores in `os.environ[key]` before
calling the wrapped function: `old_env + " " + value if old_env else value`.
`old` is `os.environ.get(key, None)`; a present-but-empty value is falsy in
Python, hence the inner test against the empty string. -/
def change_env_set (old : Option String) (value : String) : String :=
  match old with
  | some o => if o = "" then value else o ++ " " ++ value
  | none => value

/-- The value `change_env`'s wrapper stores in `os.environ[key]` after the
wrapped function returns: `old_env if old_env else " "`. -/
def change_env_restore (old : Option String) : String :=
  match old with
  | some o => if o = "" then " " else o
  | none => " "

/-- The `change_env(key, value)` wrapper from `setup.py`, restricted to the
state it touches: the value of `os.environ[key]`.  `func` is the wrapped
function's own effect on that variable (its result is overwritten by the
wrapper's final assignment). -/
def change_env_wrapper (value : String) (func : Option String → Option String)
    (env0 : Option String) : Option String :=
  let old_env := env0
  let envDuring := some (change_env_set old_env value)
  let _ := func envDuring
  some (change_env_restore old_env)

/-! ## Part B: spec-modelled index-server core -/

/-- Modelled from the spec: a `Sequence` of the data model (§3) — an
identifier and an ordered array of nucleotide symbols; the repository's
index-server implementation is not among the packaging sources. -/
structure Sequence where
  name : String
  bases : List Char
deriving DecidableEq

/-- Modelled from the spec: the error taxonomy entry `InvalidSequenceError`
(§7) raised by the Sequence Codec. -/
inductive CodecError
  | invalidSequence
deriving DecidableEq

/-- Modelled from the spec: a `PackedSequence` (§3) — the 2-bit-per-base
encoding of a sequence plus a sparse list of (position, original-symbol)
exceptions for non-canonical bases. -/
structure PackedSequence where
  name : String
  length : Nat
  packed : List Nat
  exceptions : List (Nat × Char)
deriving DecidableEq

/-- 2-bit code of a canonical base; `none` for every non-ACGT symbol
(including `N` and lowercase variants), which the codec records as an
exception instead. -/
def baseCode : Char → Option Nat
  | 'A' => some 0
  | 'C' => some 1
  | 'G' => some 2
  | 'T' => some 3
  | _ => none

/-- Base symbol of a 2-bit code. -/
def codeBase : Nat → Char
  | 0 => 'A'
  | 1 => 'C'
  | 2 => 'G'
  | 3 => 'T'
  | _ => 'A'

/-- Pack a list of 2-bit codes into bytes, four codes per byte,
least-significant first; a final partial byte is zero-padded. -/
def packCodes : List Nat → List Nat
  | [] => []
  | [c0] => [c0]
  | [c0, c1] => [c0 + 4 * c1]
  | [c0, c1, c2] => [c0 + 4 * c1 + 16 * c2]
  | c0 :: c1 :: c2 :: c3 :: rest => (c0 + 4 * c1 + 16 * c2 + 64 * c3) :: packCodes rest

/-- The four 2-bit codes stored in one byte, least-significant first. -/
def byteCodes (b : Nat) : List Nat :=
  [b % 4, b / 4 % 4, b / 16 % 4, b / 64 % 4]

/-- Unpack `len` 2-bit codes from a byte list, dropping the padding. -/
def unpackCodes (len : Nat) (bytes : List Nat) : List Nat :=
  List.take len (bytes.flatMap byteCodes)

/-- Pair every element of a list with its position, starting at `n`. -/
def withIdx {α : Type} : Nat → List α → List (Nat × α)
  | _, [] => []
  | n, a :: l => (n, a) :: withIdx (n + 1) l

/-- 2-bit codes of a base list (exception positions carry a placeholder 0). -/
def seqCodes (bases : List Char) : List Nat :=
  bases.map (fun c => (baseCode c).getD 0)

/-- The (position, original-symbol) exception list of a base list: every
position whose symbol has no 2-bit code. -/
def seqExceptions (bases : List Char) : List (Nat × Char) :=
  (withIdx 0 bases).filter (fun p => (baseCode p.2).isNone)

/-- Modelled from the spec: the Sequence Codec's `encode` (§4.1) — packs a
sequence 2 bits per base with non-ACGT symbols kept as exceptions, and fails
with `InvalidSequenceError` on empty input; the codec implementation is not
among the packaging sources. -/
def encode (s : Sequence) : Except CodecError PackedSequence :=
  if s.bases = [] then .error .invalidSequence
  else .ok
    { name := s.name
      length := s.bases.length
      packed := packCodes (seqCodes s.bases)
      exceptions := seqExceptions s.bases }

/-- Rebuild the base list from 2-bit codes starting at position `n`: an
exception recorded for a position wins over the position's 2-bit code. -/
def decodeBases (exs : List (Nat × Char)) : List Nat → Nat → List Char
  | [], _ => []
  | k :: rest, n => (List.lookup n exs).getD (codeBase k) :: decodeBases exs rest (n + 1)

/-- Modelled from the spec: the Sequence Codec's `decode` (§4.1) — unpacks
the 2-bit codes and restores every exception position to its recorded
original symbol. -/
def decode (p : PackedSequence) : Sequence :=
  { name := p.name
    bases := decodeBases p.exceptions (unpackCodes p.length p.packed) 0 }

/-- The extended nucleotide alphabet of the codec contract (§4.1). -/
def extendedAlphabet : List Char :=
  ['A', 'C', 'G', 'T', 'N', 'a', 'c', 'g', 't', 'n']

/-- Modelled from the spec: the `IndexParameters` record (§3), including the
repeat-occurrence ceiling that §9 asks to be an explicit field; the
index-server implementation is not among the packaging sources. -/
structure IndexParameters where
  tileSize : Nat
  stepSize : Nat
  minMatch : Nat
  minScore : Nat
  maxGap : Nat
  repeatCeiling : Nat
deriving DecidableEq

/-- Strand of a tile occurrence or alignment hit. -/
inductive Strand
  | fwd
  | rev
deriving DecidableEq

/-- Modelled from the spec: one (sequence-id, offset, strand) occurrence
record of the `TileIndex` (§3). -/
structure Occurrence where
  seqId : String
  offset : Nat
  strand : Strand
deriving DecidableEq

/-- Modelled from the spec: the `TileIndex` (§3) — a mapping from a
fixed-length tile to the ordered list of its occurrences, kept as an
association list in first-insertion order. -/
abbrev TileIndex : Type := List (String × List Occurrence)

/-- Modelled from the spec: the error taxonomy entry `IndexBuildError` (§7). -/
inductive IndexError
  | indexBuild
deriving DecidableEq

/-- Watson-Crick complement of a base symbol (case-preserving; symbols
without a complement, such as `N`, are unchanged). -/
def complementBase : Char → Char
  | 'A' => 'T'
  | 'C' => 'G'
  | 'G' => 'C'
  | 'T' => 'A'
  | 'a' => 't'
  | 'c' => 'g'
  | 'g' => 'c'
  | 't' => 'a'
  | c => c

/-- Reverse complement of a tile. -/
def revComp (w : List Char) : List Char :=
  (w.map complementBase).reverse

/-- Canonical key of a tile (§4.2): the lexicographically smaller of the
forward tile and its reverse complement, together with the strand that
produced it. -/
def canonicalKmer (w : List Char) : String × Strand :=
  let f := String.mk w
  let r := String.mk (revComp w)
  if f ≤ r then (f, Strand.fwd) else (r, Strand.rev)

/-- Window start offsets when sliding a window of length `tile` with step
`step` over a sequence of length `len` (§4.2); every offset `o` satisfies
`o + tile ≤ len`. -/
def tileOffsets (len tile step : Nat) : List Nat :=
  if tile ≤ len then (List.range ((len - tile) / step + 1)).map (fun k => k * step)
  else []

/-- The window of length `tile` starting at offset `o`. -/
def window (bases : List Char) (o tile : Nat) : List Char :=
  (bases.drop o).take tile

/-- Append one occurrence to the entry of key `k`, keeping first-insertion
order of keys and of occurrences within a key. -/
def addOcc : TileIndex → String → Occurrence → TileIndex
  | [], k, oc => [(k, [oc])]
  | (k', os) :: rest, k, oc =>
    if k' = k then (k', os ++ [oc]) :: rest
    else (k', os) :: addOcc rest k oc

/-- Index one reference sequence: slide the window, compute each tile's
canonical key and strand, and append the occurrence record (§4.2). -/
def indexSequence (m : TileIndex) (p : IndexParameters) (s : Sequence) : TileIndex :=
  (tileOffsets s.bases.length p.tileSize p.stepSize).foldl
    (fun acc o =>
      addOcc acc (canonicalKmer (window s.bases o p.tileSize)).1
        { seqId := s.name
          offset := o
          strand := (canonicalKmer (window s.bases o p.tileSize)).2 }) m

/-- Modelled from the spec: the tile map produced by the Genome Index build
(§4.2), with tiles occurring more often than the repeat-occurrence ceiling
dropped from the index. -/
def buildTileIndex (seqs : List Sequence) (p : IndexParameters) : TileIndex :=
  (seqs.foldl (fun m s => indexSequence m p s) []).filter
    (fun e => decide (e.2.length ≤ p.repeatCeiling))

/-- Modelled from the spec: the Genome Index `build` (§4.2) — fails with
`IndexBuildError` when the total reference length is zero or `tileSize`
exceeds the shortest reference sequence, and otherwise produces the
`TileIndex`; the index-server implementation is not among the packaging
sources. -/
def build (seqs : List Sequence) (p : IndexParameters) :
    Except IndexError TileIndex :=
  if (seqs.map (fun s => s.bases.length)).sum = 0 then .error .indexBuild
  else if seqs.any (fun s => decide (s.bases.length < p.tileSize)) then .error .indexBuild
  else .ok (buildTileIndex seqs p)

/-- Modelled from the spec: an `AlignmentHit` record (§3). -/
structure AlignmentHit where
  targetId : String
  targetStart : Nat
  targetEnd : Nat
  queryStart : Nat
  queryEnd : Nat
  strand : Strand
  score : Nat
  matchCount : Nat
  mismatchCount : Nat
deriving DecidableEq

/-- A seed: an occurrence of a query tile matching an indexed reference tile
at a given diagonal (§4.3 step 1). -/
structure Seed where
  seqId : String
  strand : Strand
  diag : Int
  qOff : Nat
  tOff : Nat
deriving DecidableEq

/-- Occurrence list stored in the index for one tile key. -/
def lookupTile (idx : TileIndex) (k : String) : List Occurrence :=
  match idx.find? (fun e => e.1 == k) with
  | some e => e.2
  | none => []

/-- The seed produced by one query-tile occurrence: the match strand combines
the stored strand with the query tile's orientation, and the diagonal is
target offset minus query offset. -/
def mkSeed (qo : Nat) (qst : Strand) (oc : Occurrence) : Seed :=
  { seqId := oc.seqId
    strand := if oc.strand = qst then Strand.fwd else Strand.rev
    diag := (oc.offset : Int) - (qo : Int)
    qOff := qo
    tOff := oc.offset }

/-- §4.3 step 1: tile the query as in indexing and gather all seed
occurrences from the index. -/
def gatherSeeds (q : Sequence) (idx : TileIndex) (p : IndexParameters) : List Seed :=
  (tileOffsets q.bases.length p.tileSize p.stepSize).flatMap (fun qo =>
    (lookupTile idx (canonicalKmer (window q.bases qo p.tileSize)).1).map
      (mkSeed qo (canonicalKmer (window q.bases qo p.tileSize)).2))

/-- Chains are keyed by target sequence, strand, and diagonal (§4.3 step 2). -/
abbrev ChainKey : Type := String × Strand × Int

/-- Append one seed to the chain of its key, keeping first-insertion order. -/
def addSeed : List (ChainKey × List Seed) → Seed → List (ChainKey × List Seed)
  | [], sd => [((sd.seqId, sd.strand, sd.diag), [sd])]
  | (k, sds) :: rest, sd =>
    if k = (sd.seqId, sd.strand, sd.diag) then (k, sds ++ [sd]) :: rest
    else (k, sds) :: addSeed rest sd

/-- §4.3 step 2: group seeds sharing target sequence, strand, and diagonal
into chains. -/
def groupSeeds (sds : List Seed) : List (ChainKey × List Seed) :=
  sds.foldl addSeed []

/-- §4.3 step 3 for one chain: extend the span to cover all contributing seed
tiles and score the chain; seeds of one chain share a diagonal, so there is
no internal discontinuity and no gap penalty applies. -/
def candidateOfChain (p : IndexParameters) (e : ChainKey × List Seed) : AlignmentHit :=
  match e.2 with
  | [] =>
    { targetId := e.1.1, targetStart := 0, targetEnd := 0, queryStart := 0,
      queryEnd := 0, strand := e.1.2.1, score := 0, matchCount := 0, mismatchCount := 0 }
  | s0 :: rest =>
    { targetId := e.1.1
      targetStart := rest.foldl (fun m sd => Nat.min m sd.tOff) s0.tOff
      targetEnd := rest.foldl (fun m sd => Nat.max m sd.tOff) s0.tOff + p.tileSize
      queryStart := rest.foldl (fun m sd => Nat.min m sd.qOff) s0.qOff
      queryEnd := rest.foldl (fun m sd => Nat.max m sd.qOff) s0.qOff + p.tileSize
      strand := e.1.2.1
      score := (rest.length + 1) * p.tileSize
      matchCount := (rest.length + 1) * p.tileSize
      mismatchCount := 0 }

/-- §4.3 steps 1-4: the candidate hits that survive the `minMatch` and
`minScore` filters, in chain-formation order, before sorting. -/
def candidates (q : Sequence) (idx : TileIndex) (p : IndexParameters) :
    List AlignmentHit :=
  (((groupSeeds (gatherSeeds q idx p)).filter
      (fun e => decide (p.minMatch ≤ e.2.length))).map (candidateOfChain p)).filter
    (fun h => decide (p.minScore ≤ h.score))

/-- Target-side span of a hit. -/
def span (h : AlignmentHit) : Nat := h.targetEnd - h.targetStart

/-- The hit ordering of §4.3 step 5: descending score, ties broken by longer
span, then lexicographically smaller target id, then smaller target start. -/
def hitOrder (a b : AlignmentHit) : Prop :=
  b.score < a.score ∨ (a.score = b.score ∧
    (span b < span a ∨ (span a = span b ∧
      (a.targetId < b.targetId ∨ (a.targetId = b.targetId ∧
        a.targetStart ≤ b.targetStart)))))

instance : DecidableRel hitOrder := fun a b => by
  unfold hitOrder
  infer_instance

/-- Modelled from the spec: the Search Engine's `search` (§4.3) — seeds,
chains, filtered candidates, then the sorted hit list; the index-server
implementation is not among the packaging sources. -/
def search (q : Sequence) (idx : TileIndex) (p : IndexParameters) :
    List AlignmentHit :=
  List.insertionSort hitOrder (candidates q idx p)

/-- Modelled from the spec: the error taxonomy entry `PortExhaustedError`
(§7). -/
inductive PortError
  | portExhausted
deriving DecidableEq

/-- Outcome of `bindWithRetry` (§4.5): either a fresh socket bound on a port,
or an instruction to attach to the compatible server already on a port. -/
inductive BindOutcome
  | bound (port : Nat)
  | attached (port : Nat)
deriving DecidableEq

/-- One attempt loop of `bindWithRetry`, with the attempt counter and the
number of attempts still allowed.  `occupied` tells whether a port is already
taken, `alive` whether its occupant answers the liveness handshake. -/
def bindWithRetryAux (occupied alive : Nat → Bool) (attach : Bool)
    (preferredPort : Nat) : Nat → Nat → Except PortError BindOutcome
  | _, 0 => .error .portExhausted
  | attempt, remaining + 1 =>
    let p := preferredPort + attempt
    if occupied p = false then .ok (.bound p)
    else if alive p && attach then .ok (.attached p)
    else bindWithRetryAux occupied alive attach preferredPort (attempt + 1) remaining

/-- Modelled from the spec: the Port/Session Manager's `bindWithRetry` (§4.5)
— tries `preferredPort + attempt` for successive attempts up to `maxRetries`;
a free port is bound, a busy port with a live occupant is attached to when the
attach option is on, and otherwise the next port is tried until retries are
exhausted, which fails with `PortExhaustedError`.  The port manager
implementation is not among the packaging sources. -/
def bindWithRetry (occupied alive : Nat → Bool) (attach : Bool)
    (preferredPort maxRetries : Nat) : Except PortError BindOutcome :=
  bindWithRetryAux occupied alive attach preferredPort 0 maxRetries

/-- Example environment used to witness `remove_env_iff`. -/
def envEx : String → Option String :=
  fun k => if k = "CFLAGS" then some "-DNDEBUG -O2" else none

/-- Example hit used to witness the hit-order theorems. -/
def hitEx : AlignmentHit :=
  { targetId := "t", targetStart := 0, targetEnd := 4, queryStart := 0,
    queryEnd := 4, strand := Strand.fwd, score := 4, matchCount := 4,
    mismatchCount := 0 }

/-- Lexicographic sort key realising `hitOrder`: negated score, negated span,
target id, target start. -/
def sortKey (h : AlignmentHit) : Int ×ₗ (Int ×ₗ (String ×ₗ Nat)) :=
  toLex (-(h.score : Int), toLex (-(span h : Int), toLex (h.targetId, h.targetStart)))

/-! ## Theorems -/

/-- C2: `encode` fails with `InvalidSequenceError` exactly on empty input,
and succeeds (it is a pure data transform returning a `PackedSequence`) on
every non-empty input. -/
theorem encode_err_iff_empty (S : Sequence) :
    (encode S = Except.error CodecError.invalidSequence ↔ S.bases = [])
    ∧ (S.bases = [] ∨ ∃ P, encode S = Except.ok P) := by
  constructor
  · constructor
    · intro h
      by_contra hne
      simp [encode, hne] at h
    · intro h
      simp [encode, h]
  · by_cases h : S.bases = []
    · exact Or.inl h
    · refine Or.inr ⟨PackedSequence.mk S.name S.bases.length
        (packCodes (seqCodes S.bases)) (seqExceptions S.bases), ?_⟩
      simp [encode, h]

/-- C3: the Genome Index `build` fails with `IndexBuildError` exactly when
the total reference length is zero or `tileSize` exceeds the length of some
(hence of the shortest) reference sequence; otherwise it produces the
`TileIndex`. -/
theorem build_err_iff (seqs : List Sequence) (p : IndexParameters) :
    (build seqs p = Except.error IndexError.indexBuild ↔
      (seqs.map (fun s => s.bases.length)).sum = 0
        ∨ ∃ s ∈ seqs, s.bases.length < p.tileSize)
    ∧ (build seqs p = Except.error IndexError.indexBuild
        ∨ build seqs p = Except.ok (buildTileIndex seqs p)) := by
  have hany : (seqs.any (fun s => decide (s.bases.length < p.tileSize)) = true) ↔
      (∃ s ∈ seqs, s.bases.length < p.tileSize) := by
    rw [List.any_eq_true]
    simp
  unfold build
  by_cases h1 : (seqs.map (fun s => s.bases.length)).sum = 0
  · simp [h1]
  · by_cases h2 : seqs.any (fun s => decide (s.bases.length < p.tileSize)) = true
    · simp [h1, h2, hany.mp h2]
    · have h2' : ¬ ∃ s ∈ seqs, s.bases.length < p.tileSize :=
        fun hx => h2 (hany.mpr hx)
      simp [h1, h2, h2']

/-- C5: `search` is deterministic — two invocations on the same query, index,
and parameters return the same ordered hit list. -/
theorem search_deterministic (q : Sequence) (idx : TileIndex) (p : IndexParameters)
    (r1 r2 : List AlignmentHit)
    (h1 : r1 = search q idx p) (h2 : r2 = search q idx p) : r1 = r2 :=
  h1.trans h2.symm

/-- Witness for C5 at a concrete query, index, and parameter record. -/
theorem search_deterministic_witness :
    search ⟨"q", ['A']⟩ [] ⟨1, 1, 1, 0, 0, 0⟩ = search ⟨"q", ['A']⟩ [] ⟨1, 1, 1, 0, 0, 0⟩ :=
  search_deterministic ⟨"q", ['A']⟩ [] ⟨1, 1, 1, 0, 0, 0⟩ _ _ rfl rfl

/-- If every port probed during the remaining attempts is occupied by a
non-responsive occupant, the retry loop exhausts its budget. -/
theorem bindAux_exhausts (occupied alive : Nat → Bool) (attach : Bool) (pref : Nat) :
    ∀ remaining attempt : Nat,
      (∀ i, i < remaining → occupied (pref + attempt + i) = true) →
      (∀ q, alive q = false) →
      bindWithRetryAux occupied alive attach pref attempt remaining =
        Except.error PortError.portExhausted := by
  intro remaining
  induction remaining with
  | zero => intro attempt _ _; rfl
  | succ n ih =>
    intro attempt hocc halive
    have h0 : occupied (pref + attempt) = true := by
      have := hocc 0 (Nat.succ_pos n)
      simpa using this
    have hrest : ∀ i, i < n → occupied (pref + (attempt + 1) + i) = true := by
      intro i hi
      have harg : pref + (attempt + 1) + i = pref + attempt + (i + 1) := by omega
      rw [harg]
      exact hocc (i + 1) (by omega)
    unfold bindWithRetryAux
    simp [h0, halive]
    exact ih (attempt + 1) hrest halive

/-- If the first `remaining` probed ports are occupied by non-responsive
occupants and the next one is free, the retry loop binds that next port. -/
theorem bindAux_binds (occupied alive : Nat → Bool) (attach : Bool) (pref : Nat) :
    ∀ remaining attempt : Nat,
      (∀ i, i < remaining → occupied (pref + attempt + i) = true) →
      (∀ q, alive q = false) →
      occupied (pref + attempt + remaining) = false →
      bindWithRetryAux occupied alive attach pref attempt (remaining + 1) =
        Except.ok (BindOutcome.bound (pref + attempt + remaining)) := by
  intro remaining
  induction remaining with
  | zero =>
    intro attempt _ _ hfree
    unfold bindWithRetryAux
    simp at hfree
    simp [hfree]
  | succ n ih =>
    intro attempt hocc halive hfree
    have h0 : occupied (pref + attempt) = true := by
      have := hocc 0 (Nat.succ_pos n)
      simpa using this
    have hrest : ∀ i, i < n → occupied (pref + (attempt + 1) + i) = true := by
      intro i hi
      have harg : pref + (attempt + 1) + i = pref + attempt + (i + 1) := by omega
      rw [harg]
      exact hocc (i + 1) (by omega)
    have hfree' : occupied (pref + (attempt + 1) + n) = false := by
      have harg : pref + (attempt + 1) + n = pref + attempt + (n + 1) := by omega
      rw [harg]
      exact hfree
    unfold bindWithRetryAux
    simp [h0, halive]
    have := ih (attempt + 1) hrest halive hfree'
    rw [this]
    have harg : pref + (attempt + 1) + n = pref + attempt + (n + 1) := by omega
    rw [harg]

/-- C7: against `N` consecutively occupied, non-responsive ports,
`bindWithRetry` fails with `PortExhaustedError` when `maxRetries = N` and
binds port `preferredPort + N` when `maxRetries = N + 1`. -/
theorem bindWithRetry_bound (occupied alive : Nat → Bool) (attach : Bool)
    (pref N : Nat)
    (hocc : ∀ i, i < N → occupied (pref + i) = true)
    (halive : ∀ q, alive q = false)
    (hfree : occupied (pref + N) = false) :
    bindWithRetry occupied alive attach pref N = Except.error PortError.portExhausted
    ∧ bindWithRetry occupied alive attach pref (N + 1) =
        Except.ok (BindOutcome.bound (pref + N)) := by
  have hocc0 : ∀ i, i < N → occupied (pref + 0 + i) = true := by
    intro i hi
    simpa using hocc i hi
  have hfree0 : occupied (pref + 0 + N) = false := by simpa using hfree
  constructor
  · exact bindAux_exhausts occupied alive attach pref N 0 hocc0 halive
  · have := bindAux_binds occupied alive attach pref N 0 hocc0 halive hfree0
    simpa using this

/-- Witness for C7: two occupied dead ports, `maxRetries = 2` exhausts and
`maxRetries = 3` binds port 7002. -/
theorem bindWithRetry_bound_witness :
    bindWithRetry (fun q => q == 7000 || q == 7001) (fun _ => false) false 7000 2 =
        Except.error PortError.portExhausted
    ∧ bindWithRetry (fun q => q == 7000 || q == 7001) (fun _ => false) false 7000 3 =
        Except.ok (BindOutcome.bound 7002) :=
  bindWithRetry_bound (fun q => q == 7000 || q == 7001) (fun _ => false) false 7000 2
    (by intro i hi; interval_cases i <;> rfl) (fun _ => rfl) rfl

/-- C8 counterexample: when the variable was previously present with the
empty-string value, the wrapper does not restore that old value — it leaves a
single space instead. -/
theorem change_env_claim_cex : change_env_wrapper "X" id (some "") ≠ some "" := by
  decide

/-- C8 (amended): after the wrapped call, a previously *non-empty* value is
restored, while an absent or empty previous value leaves the variable set to
a single space; during the call the variable holds old value, a space, and
`value` when the old value was non-empty, and just `value` otherwise. -/
theorem change_env_amended (o value : String) (func : Option String → Option String) :
    change_env_wrapper value func none = some " "
    ∧ change_env_wrapper value func (some "") = some " "
    ∧ (o ≠ "" → change_env_wrapper value func (some o) = some o)
    ∧ change_env_set none value = value
    ∧ change_env_set (some "") value = value
    ∧ (o ≠ "" → change_env_set (some o) value = o ++ " " ++ value) := by
  refine ⟨rfl, rfl, fun h => ?_, rfl, rfl, fun h => ?_⟩
  · simp [change_env_wrapper, change_env_restore, h]
  · simp [change_env_set, h]

/-- Witness for C8's amended statement at a non-empty previous value. -/
theorem change_env_amended_witness :
    change_env_wrapper "X" id (some "A") = some "A" :=
  (change_env_amended "A" "X" id).2.2.1 (by decide)

/-- C9: `change_dir` always restores the saved working directory — the body's
result (including a raised exception) is returned with the directory reset to
its value on entry, whatever directory the body left behind. -/
theorem change_dir_restores (ε α : Type) (path : String) (body : DirM ε α)
    (d0 : String) :
    (change_dir path body d0).2 = d0
    ∧ (change_dir path body d0).1 = (body path).1
    ∧ (∀ e : ε, (body path).1 = Except.error e →
        change_dir path body d0 = (Except.error e, d0)) := by
  have hrun : change_dir path body d0 = ((body path).1, d0) := by
    unfold change_dir dirBind getcwd chdir tryFinallyD
    rcases h : body path with ⟨r, d1⟩
    simp [h]
  refine ⟨by rw [hrun], by rw [hrun], fun e he => by rw [hrun, he]⟩

/-- Witness for C9: a body that raises after moving elsewhere still ends with
the original directory. -/
theorem change_dir_restores_witness :
    (change_dir "/tmp" (fun _ => (Except.error 7, "/elsewhere")) "/start"
      : Except Nat Unit × String) = (Except.error 7, "/start") :=
  (change_dir_restores Nat Unit "/tmp" (fun _ => (Except.error 7, "/elsewhere"))
    "/start").2.2 7 rfl

/-- C10: when both flag variables shell-lex successfully, `remove_env` raises
`RuntimeError` exactly when some lexed token of `CFLAGS` or `CPPFLAGS` starts
with `key`, and otherwise returns unit without touching the environment (the
embedding reads the environment and cannot write it). -/
theorem remove_env_iff (key : String) (env : String → Option String)
    (fs1 fs2 : List String)
    (h1 : shlex_split ((env "CFLAGS").getD "") = Except.ok fs1)
    (h2 : shlex_split ((env "CPPFLAGS").getD "") = Except.ok fs2) :
    (remove_env key env =
        Except.error (PyErr.runtimeError
          ("Please remove " ++ key ++ " from CFLAGS and CPPFLAGS."))
      ↔ ∃ t ∈ fs1 ++ fs2, key.data.isPrefixOf t.data = true)
    ∧ ((¬ ∃ t ∈ fs1 ++ fs2, key.data.isPrefixOf t.data = true) → remove_env key env = Except.ok ()) := by
  have hrm : remove_env key env =
      (if (fs1 ++ fs2).any (fun flag => key.data.isPrefixOf flag.data) then
        Except.error (PyErr.runtimeError
          ("Please remove " ++ key ++ " from CFLAGS and CPPFLAGS."))
      else Except.ok ()) := by
    unfold remove_env
    simp only [h1, h2]
  have hiff : ((fs1 ++ fs2).any (fun flag => key.data.isPrefixOf flag.data) = true) ↔
      (∃ t ∈ fs1 ++ fs2, key.data.isPrefixOf t.data = true) := List.any_eq_true
  by_cases hany : (fs1 ++ fs2).any (fun flag => key.data.isPrefixOf flag.data) = true
  · rw [hrm, if_pos hany]
    refine ⟨⟨fun _ => hiff.mp hany, fun _ => rfl⟩, fun hn => absurd (hiff.mp hany) hn⟩
  · rw [hrm, if_neg hany]
    have hn : ¬ ∃ t ∈ fs1 ++ fs2, key.data.isPrefixOf t.data = true :=
      fun hx => hany (hiff.mpr hx)
    exact ⟨⟨fun h => absurd h (by simp), fun hx => absurd hx hn⟩, fun _ => rfl⟩

/-- Witness for C10: a concrete environment whose `CFLAGS` contains a token
starting with the key. -/
theorem remove_env_iff_witness :
    remove_env "-DNDEBUG" envEx =
      Except.error (PyErr.runtimeError
        ("Please remove " ++ "-DNDEBUG" ++ " from CFLAGS and CPPFLAGS.")) :=
  (remove_env_iff "-DNDEBUG" envEx ["-DNDEBUG", "-O2"] [] rfl rfl).1.mpr
    ⟨"-DNDEBUG", by simp, by decide⟩

/-- Every 2-bit code produced for a base fits in two bits. -/
theorem baseCode_getD_lt (c : Char) : (baseCode c).getD 0 < 4 := by
  unfold baseCode
  split <;> decide

/-- Decoding the 2-bit code of a canonical base gives the base back. -/
theorem codeBase_baseCode {c : Char} {k : Nat} (h : baseCode c = some k) :
    codeBase k = c := by
  revert h
  unfold baseCode
  split <;> intro h <;> first
    | (cases h; rfl)
    | exact absurd h (by simp)

/-- Unpacking after packing recovers the 2-bit codes. -/
theorem unpack_pack : ∀ codes : List Nat, (∀ c ∈ codes, c < 4) →
    List.take codes.length ((packCodes codes).flatMap byteCodes) = codes
  | [], _ => rfl
  | [c0], h => by
    have h0 := h c0 (by simp)
    simp only [packCodes, byteCodes, List.flatMap_cons, List.flatMap_nil,
      List.append_nil, List.length_cons, List.length_nil, List.take_succ_cons,
      List.take_zero, List.cons.injEq, and_true]
    omega
  | [c0, c1], h => by
    have h0 := h c0 (by simp)
    have h1 := h c1 (by simp)
    simp only [packCodes, byteCodes, List.flatMap_cons, List.flatMap_nil,
      List.append_nil, List.length_cons, List.length_nil, List.take_succ_cons,
      List.take_zero, List.cons.injEq, and_true]
    omega
  | [c0, c1, c2], h => by
    have h0 := h c0 (by simp)
    have h1 := h c1 (by simp)
    have h2 := h c2 (by simp)
    simp only [packCodes, byteCodes, List.flatMap_cons, List.flatMap_nil,
      List.append_nil, List.length_cons, List.length_nil, List.take_succ_cons,
      List.take_zero, List.cons.injEq, and_true]
    omega
  | c0 :: c1 :: c2 :: c3 :: rest, h => by
    have h0 := h c0 (by simp)
    have h1 := h c1 (by simp)
    have h2 := h c2 (by simp)
    have h3 := h c3 (by simp)
    have ih := unpack_pack rest (fun c hc => h c (by simp [hc]))
    simp only [packCodes, byteCodes, List.flatMap_cons, List.cons_append,
      List.nil_append, List.length_cons, List.take_succ_cons, List.cons.injEq]
    refine ⟨by omega, by omega, by omega, by omega, ?_⟩
    exact ih

/-- Indices produced by `withIdx` are at least the start index. -/
theorem withIdx_mem_le {α : Type} : ∀ (l : List α) (m : Nat) (p : Nat × α),
    p ∈ withIdx m l → m ≤ p.1
  | [], _, _, h => absurd h (by simp [withIdx])
  | a :: l, m, p, h => by
    unfold withIdx at h
    rcases List.mem_cons.mp h with h | h
    · subst h
      exact Nat.le_refl m
    · exact Nat.le_of_succ_le (withIdx_mem_le l (m + 1) p h)

/-- Looking up an index below the start index of a filtered `withIdx` list
finds nothing. -/
theorem lookup_filter_withIdx {α : Type} (P : Nat × α → Bool) :
    ∀ (l : List α) (m i : Nat), i < m →
      List.lookup i ((withIdx m l).filter P) = none
  | [], _, _, _ => rfl
  | a :: l, m, i, h => by
    unfold withIdx
    rw [List.filter_cons]
    have hne : (i == m) = false := by
      simp [Nat.ne_of_lt h]
    by_cases hP : P (m, a)
    · simp only [hP, if_true, List.lookup, hne]
      exact lookup_filter_withIdx P l (m + 1) i (Nat.lt_succ_of_lt h)
    · simp only [hP, if_false, Bool.false_eq_true]
      exact lookup_filter_withIdx P l (m + 1) i (Nat.lt_succ_of_lt h)

/-- An exception entry at a position below every decoded position is never
consulted. -/
theorem decodeBases_skip : ∀ (codes : List Nat) (n k : Nat) (v : Char)
    (E : List (Nat × Char)), k < n →
    decodeBases ((k, v) :: E) codes n = decodeBases E codes n
  | [], _, _, _, _, _ => rfl
  | c :: rest, n, k, v, E, h => by
    unfold decodeBases
    have hne : (n == k) = false := by
      simp [Nat.ne_of_gt h]
    simp only [List.lookup, hne]
    rw [decodeBases_skip rest (n + 1) k v E (Nat.lt_succ_of_lt h)]

/-- Decoding the codes of a base list against its own exception list, both
built from position `m` on, recovers the base list. -/
theorem decode_encode_aux : ∀ (l : List Char) (m : Nat),
    decodeBases ((withIdx m l).filter (fun p => (baseCode p.2).isNone))
      (seqCodes l) m = l
  | [], _ => rfl
  | c :: l, m => by
    have ih := decode_encode_aux l (m + 1)
    simp only [seqCodes, List.map_cons, withIdx, List.filter_cons] at ih ⊢
    by_cases hP : (baseCode c).isNone
    · simp only [hP, if_true]
      unfold decodeBases
      have hlk : List.lookup m (((m, c) :: (withIdx (m + 1) l).filter
          (fun p => (baseCode p.2).isNone))) = some c := by
        simp [List.lookup]
      rw [hlk]
      rw [decodeBases_skip _ (m + 1) m c _ (Nat.lt_succ_self m)]
      simp only [Option.getD_some]
      exact congrArg (c :: ·) ih
    · simp only [hP, Bool.false_eq_true, if_false]
      unfold decodeBases
      have hlk : List.lookup m ((withIdx (m + 1) l).filter
          (fun p => (baseCode p.2).isNone)) = none :=
        lookup_filter_withIdx _ l (m + 1) m (Nat.lt_succ_self m)
      rw [hlk]
      rcases Option.ne_none_iff_exists'.mp (by simpa using hP) with ⟨k, hk⟩
      rw [hk]
      simp only [Option.getD_none, Option.getD_some]
      rw [codeBase_baseCode hk]
      exact congrArg (c :: ·) ih

/-- C1 (amended): for every non-empty sequence over the extended nucleotide
alphabet, `encode` succeeds and `decode` reproduces the original sequence
exactly, exception positions included. -/
theorem codec_roundtrip (S : Sequence) (hne : S.bases ≠ [])
    (_halpha : ∀ c ∈ S.bases, c ∈ extendedAlphabet) :
    ∃ P, encode S = Except.ok P ∧ decode P = S := by
  refine ⟨PackedSequence.mk S.name S.bases.length (packCodes (seqCodes S.bases))
    (seqExceptions S.bases), by simp [encode, hne], ?_⟩
  have hcodes : unpackCodes S.bases.length (packCodes (seqCodes S.bases)) =
      seqCodes S.bases := by
    have hlen : S.bases.length = (seqCodes S.bases).length := by simp [seqCodes]
    rw [unpackCodes, hlen]
    refine unpack_pack (seqCodes S.bases) ?_
    intro c hc
    rcases List.mem_map.mp hc with ⟨x, _, rfl⟩
    exact baseCode_getD_lt x
  cases S with
  | mk nm bs =>
    simp only [decode] at hcodes ⊢
    rw [hcodes]
    simp only [Sequence.mk.injEq, true_and]
    exact decode_encode_aux bs 0

/-- C1 counterexample to the unrestricted claim: on the empty sequence
`encode` fails with `InvalidSequenceError`, so `decode (encode S) = S` cannot
hold there. -/
theorem codec_roundtrip_empty_cex :
    encode ⟨"q", []⟩ = Except.error CodecError.invalidSequence
    ∧ ¬ ∃ P, encode ⟨"q", []⟩ = Except.ok P ∧ decode P = ⟨"q", []⟩ := by
  constructor
  · rfl
  · rintro ⟨P, hP, -⟩
    exact absurd hP (by simp [encode])

/-- Witness for C1's amended statement: a sequence mixing canonical bases,
lowercase variants, and `N` round-trips exactly. -/
theorem codec_roundtrip_witness :
    ∃ P, encode ⟨"s", ['A', 'c', 'N', 'T', 'g']⟩ = Except.ok P
      ∧ decode P = ⟨"s", ['A', 'c', 'N', 'T', 'g']⟩ :=
  codec_roundtrip ⟨"s", ['A', 'c', 'N', 'T', 'g']⟩ (by decide) (by decide)

/-- Negated `Int` casts reverse strict comparison of naturals. -/
theorem negcast_lt (x y : Nat) : (-(x : Int) < -(y : Int)) ↔ y < x := by omega

/-- Negated `Int` casts preserve equality of naturals. -/
theorem negcast_eq (x y : Nat) : (-(x : Int) = -(y : Int)) ↔ x = y := by omega

/-- `hitOrder` is the lexicographic comparison of the sort keys. -/
theorem hitOrder_iff_sortKey (a b : AlignmentHit) :
    hitOrder a b ↔ sortKey a ≤ sortKey b := by
  unfold hitOrder sortKey
  simp only [Prod.Lex.le_iff, negcast_lt, negcast_eq]

/-- C4: `search` output is sorted by `hitOrder` — descending score, ties by
longer span, then smaller target id, then smaller target start — and
`hitOrder` is total and transitive, with mutually related hits equal on the
whole ordering key. -/
theorem search_sorted_total_order (q : Sequence) (idx : TileIndex)
    (p : IndexParameters) :
    List.Sorted hitOrder (search q idx p)
    ∧ (∀ a b : AlignmentHit, hitOrder a b ∨ hitOrder b a)
    ∧ (∀ a b c : AlignmentHit, hitOrder a b → hitOrder b c → hitOrder a c)
    ∧ (∀ a b : AlignmentHit, hitOrder a b → hitOrder b a →
        a.score = b.score ∧ span a = span b ∧ a.targetId = b.targetId
          ∧ a.targetStart = b.targetStart) := by
  have htot : ∀ a b : AlignmentHit, hitOrder a b ∨ hitOrder b a := by
    intro a b
    rcases le_total (sortKey a) (sortKey b) with h | h
    · exact Or.inl ((hitOrder_iff_sortKey a b).mpr h)
    · exact Or.inr ((hitOrder_iff_sortKey b a).mpr h)
  have htrans : ∀ a b c : AlignmentHit, hitOrder a b → hitOrder b c → hitOrder a c := by
    intro a b c hab hbc
    exact (hitOrder_iff_sortKey a c).mpr
      (le_trans ((hitOrder_iff_sortKey a b).mp hab)
        ((hitOrder_iff_sortKey b c).mp hbc))
  refine ⟨?_, htot, htrans, ?_⟩
  · haveI : IsTotal AlignmentHit hitOrder := ⟨htot⟩
    haveI : IsTrans AlignmentHit hitOrder := ⟨htrans⟩
    unfold search
    exact List.sorted_insertionSort hitOrder (candidates q idx p)
  · intro a b hab hba
    have h := le_antisymm ((hitOrder_iff_sortKey a b).mp hab)
      ((hitOrder_iff_sortKey b a).mp hba)
    unfold sortKey at h
    simp only [toLex_inj, Prod.mk.injEq, negcast_eq] at h
    exact ⟨h.1, h.2.1, h.2.2.1, h.2.2.2⟩

/-- Witness for C4: a sorted concrete search result, and the key-equality
conclusion at a concrete pair of mutually related hits. -/
theorem search_sorted_witness :
    List.Sorted hitOrder (search ⟨"q", ['A', 'C']⟩ [] ⟨2, 1, 1, 0, 0, 10⟩)
    ∧ (hitEx.score = hitEx.score ∧ span hitEx = span hitEx
        ∧ hitEx.targetId = hitEx.targetId ∧ hitEx.targetStart = hitEx.targetStart) :=
  ⟨(search_sorted_total_order ⟨"q", ['A', 'C']⟩ [] ⟨2, 1, 1, 0, 0, 10⟩).1,
   (search_sorted_total_order ⟨"q", ['A', 'C']⟩ [] ⟨2, 1, 1, 0, 0, 10⟩).2.2.2
     hitEx hitEx (Or.inr ⟨rfl, Or.inr ⟨rfl, Or.inr ⟨rfl, Nat.le_refl _⟩⟩⟩)
     (Or.inr ⟨rfl, Or.inr ⟨rfl, Or.inr ⟨rfl, Nat.le_refl _⟩⟩⟩)⟩

/-- C6: when no candidate survives filtering — in particular when the query
shares no tile with any reference — `search` returns the empty list (and, the
result being a plain list, raises nothing). -/
theorem search_empty_on_no_survivor (q : Sequence) (idx : TileIndex)
    (p : IndexParameters) :
    (candidates q idx p = [] → search q idx p = [])
    ∧ ((∀ o ∈ tileOffsets q.bases.length p.tileSize p.stepSize,
          lookupTile idx (canonicalKmer (window q.bases o p.tileSize)).1 = []) →
        search q idx p = []) := by
  have hmain : candidates q idx p = [] → search q idx p = [] := by
    intro h
    unfold search
    rw [h]
    rfl
  refine ⟨hmain, fun hlk => hmain ?_⟩
  have hseeds : gatherSeeds q idx p = [] := by
    unfold gatherSeeds
    rw [List.flatMap_eq_nil_iff]
    intro o ho
    rw [hlk o ho]
    rfl
  unfold candidates
  rw [hseeds]
  rfl

/-- Witness for C6: a query against the empty index yields no hits. -/
theorem search_empty_witness :
    search ⟨"q", ['A', 'C']⟩ [] ⟨2, 1, 1, 0, 0, 10⟩ = [] :=
  (search_empty_on_no_survivor ⟨"q", ['A', 'C']⟩ [] ⟨2, 1, 1, 0, 0, 10⟩).2
    (fun _ _ => rfl)
